import Mathlib

/-!
# Weighted heat risk pipeline — verification of the specification against the code

Shallow embedding of `src/ai/weighted_heat_risk_pipeline.py` and
`src/ai/fetch_pipeline_data.py`.

Modelling conventions:
* `float64` values (temperatures, facility distances, severity scores) are
  embedded as `ℚ`; all the properties checked here are exact arithmetic facts.
* `barangay_id` and `date` cells are only ever compared, grouped, sorted and
  maximised by the code; they are embedded as `ℕ` (for dates, ISO-8601 strings
  order lexicographically exactly as their calendar days do).
* pandas tables are lists of structures, one structure field per column.
* `df.sort_values([...])` is a sort of the list by the given key; the embedding
  uses insertion sort (pandas' default quicksort is not even stable, so any
  correct sort is a faithful model).
* fallible steps return `Except PipelineError`; the three error constructors
  follow the spec's taxonomy (the Python code raises `ValueError` /
  sklearn errors, which the spec classifies as InvalidInput / InputNotFound /
  ConvergenceError).
-/

/-- Error taxonomy of the pipeline (spec §7): `invalidInput` for
missing/malformed required columns, `inputNotFound` for an empty or absent
input table, `convergenceError` when clustering cannot produce labels. -/
inductive PipelineError where
  | invalidInput (msg : String)
  | inputNotFound
  | convergenceError
deriving DecidableEq

/-- One row of the input table `barangay_data.csv`
(columns `barangay_id, date, temperature, facility_distance`). -/
structure Row where
  barangay_id : Nat
  date : Nat
  temperature : ℚ
  facility_distance : ℚ
deriving DecidableEq

/-- A row after `prepare_features` added the `temp_rolling` and
`facility_score` columns. -/
structure FRow where
  barangay_id : Nat
  date : Nat
  temperature : ℚ
  facility_distance : ℚ
  temp_rolling : ℚ
  facility_score : ℚ
deriving DecidableEq

/-- A row after `run_kmeans_and_risk_levels` added the `cluster` and
`risk_level` columns. -/
structure RRow extends FRow where
  cluster : Nat
  risk_level : Nat
deriving DecidableEq

/-- One row of the output table (`barangay_id, risk_level, cluster`). -/
structure OutRow where
  barangay_id : Nat
  risk_level : Nat
  cluster : Nat
deriving DecidableEq

/-- Sort key of `df.sort_values(["barangay_id", "date"])`:
lexicographic on (barangay_id, date). -/
def rowLE (a b : Row) : Prop :=
  a.barangay_id < b.barangay_id ∨ (a.barangay_id = b.barangay_id ∧ a.date ≤ b.date)

instance : DecidableRel rowLE := fun a b => by unfold rowLE; infer_instance

/-- `df.sort_values(["barangay_id", "date"])`. -/
def sort_values (rows : List Row) : List Row := List.insertionSort rowLE rows

/-- `df["date"].nunique()`: the number of distinct values in a column. -/
def nunique {α : Type} [DecidableEq α] (l : List α) : Nat := l.dedup.length

/-- The value of
`df.groupby("barangay_id")["temperature"].transform(λ x, x.rolling(window, min_periods=1).mean())`
at position `i` of the sorted table: the rows of the same barangay among
positions `0..i` are this row's prior-and-current group (the table is sorted
by barangay then date, so groups are contiguous), and the rolling mean is the
mean of the temperatures of the last `window` of them (all of them when fewer
than `window` exist — `min_periods=1`). -/
def tempRollingAt (window : Nat) (sorted : List Row) (i : Nat) (r : Row) : ℚ :=
  let grp := (sorted.take (i + 1)).filter (fun s => s.barangay_id == r.barangay_id)
  let win := grp.drop (grp.length - window)
  (win.map (·.temperature)).sum / win.length

/-- `prepare_features` (feature-building part): sort by (barangay_id, date);
if `use_rolling` and more than one distinct date is present, set
`temp_rolling` to the per-barangay trailing rolling mean, else copy the raw
temperature; copy `facility_distance` into `facility_score`. -/
def prepare_features (use_rolling : Bool) (window : Nat) (rows : List Row) : List FRow :=
  let sorted := sort_values rows
  let roll := use_rolling && decide (1 < nunique (sorted.map (·.date)))
  ((List.range sorted.length).zip sorted).map (fun p =>
    { barangay_id := p.2.barangay_id
      date := p.2.date
      temperature := p.2.temperature
      facility_distance := p.2.facility_distance
      temp_rolling := if roll then tempRollingAt window sorted p.1 p.2 else p.2.temperature
      facility_score := p.2.facility_distance })

/-- The spec's description of a causal trailing rolling mean of a series
(window `window`, minimum one period): entry `i` is the mean of the trailing
window ending at `i`, using all prior-and-current points when fewer than
`window` exist. Stated independently of the pipeline for claim C3. -/
def rollingMean (window : Nat) (xs : List ℚ) : List ℚ :=
  (List.range xs.length).map (fun i =>
    let win := (xs.take (i + 1)).drop (i + 1 - window)
    win.sum / win.length)

/-- Min–max scaling of one column, as `sklearn.preprocessing.MinMaxScaler`
does it: `(x - min) / (max - min)`, with a zero range replaced by 1 (so a
constant column scales to all zeros). -/
def minmaxCol (xs : List ℚ) : List ℚ :=
  let mn := xs.foldr min (xs.headD 0)
  let mx := xs.foldr max (xs.headD 0)
  let d := if mx = mn then 1 else mx - mn
  xs.map (fun x => (x - mn) / d)

/-- `MinMaxScaler().fit_transform(features)` on the 2-column feature matrix.
sklearn raises on a matrix with zero samples; per the spec's error taxonomy a
failure caused by an empty input table is `inputNotFound`. -/
def fit_transform (feats : List (ℚ × ℚ)) : Except PipelineError (List (ℚ × ℚ)) :=
  if feats.isEmpty then .error .inputNotFound
  else .ok ((minmaxCol (feats.map Prod.fst)).zip (minmaxCol (feats.map Prod.snd)))

/-- Squared euclidean distance on the 2-dimensional feature space. -/
def sqDist (p q : ℚ × ℚ) : ℚ :=
  (p.1 - q.1) * (p.1 - q.1) + (p.2 - q.2) * (p.2 - q.2)

/-- Index of the first minimum of a list (ties keep the earlier index). -/
def argminIdx : List ℚ → Nat
  | [] => 0
  | [_] => 0
  | x :: y :: t =>
    let j := argminIdx (y :: t)
    if (y :: t).getD j 0 < x then j + 1 else 0

/-- Index of the centroid nearest to `p` (lowest index on ties). -/
def nearestIdx (cs : List (ℚ × ℚ)) (p : ℚ × ℚ) : Nat := argminIdx (cs.map (sqDist p))

/-- One Lloyd update: each centroid moves to the mean of the points assigned
to it (a centroid with no points keeps its position). -/
def updateCentroids (ps cs : List (ℚ × ℚ)) : List (ℚ × ℚ) :=
  (List.range cs.length).map (fun j =>
    let g := ps.filter (fun p => nearestIdx cs p == j)
    if g.isEmpty then cs.getD j (0, 0)
    else ((g.map Prod.fst).sum / g.length, (g.map Prod.snd).sum / g.length))

/-- Lloyd iterations with a fuel bound, stopping early when the centroids no
longer move. -/
def lloyd : Nat → List (ℚ × ℚ) → List (ℚ × ℚ) → List (ℚ × ℚ)
  | 0, _, cs => cs
  | n + 1, ps, cs =>
    let cs' := updateCentroids ps cs
    if cs' = cs then cs else lloyd n ps cs'

/-- Modelled from the spec: the clustering fit (`sklearn.cluster.KMeans`, an
external library, not code of this repository) is, per spec §4.2, a
deterministic k-means-style partitioner over the scaled feature matrix: a
fixed deterministic initialisation, Lloyd iterations (bounded, with early
convergence stop), and assignment of each row to its nearest centroid. -/
def kmeans_fit_predict (n_clusters : Nat) (ps : List (ℚ × ℚ)) : List Nat :=
  let cs := lloyd 300 ps (ps.dedup.take n_clusters)
  ps.map (nearestIdx cs)

/-- The clustering step of `run_kmeans_and_risk_levels`. Per spec §4.2 the
fit fails (ConvergenceError) only when it cannot produce labels at all, i.e.
on an empty feature matrix; otherwise it returns one label per row. -/
def run_kmeans (n_clusters : Nat) (ps : List (ℚ × ℚ)) : Except PipelineError (List Nat) :=
  if ps.isEmpty then .error .convergenceError else .ok (kmeans_fit_predict n_clusters ps)

/-- The index of the per-cluster means table `df.groupby("cluster")`:
the distinct cluster labels in ascending order (pandas `groupby` sorts its
keys). -/
def sortedClusters (labels : List Nat) : List Nat :=
  List.insertionSort (· ≤ ·) labels.dedup

/-- Severity score of cluster `c`:
`cluster_means.dot(weights)` for `cluster_means = df.groupby("cluster")[["temp_rolling","facility_score"]].mean()`
and `weights = [0.6, 0.4]`, computed over the rows assigned to `c` with the
unscaled `temp_rolling` and `facility_score` values. -/
def severity (dfc : List (FRow × Nat)) (c : Nat) : ℚ :=
  let g := dfc.filter (fun p => p.2 == c)
  (6 / 10 : ℚ) * ((g.map (·.1.temp_rolling)).sum / g.length)
    + (4 / 10 : ℚ) * ((g.map (·.1.facility_score)).sum / g.length)

/-- The strict order that pandas `Series.rank(method="first", ascending=True)`
ranks by: position `j` comes before position `i` when its value is smaller,
or on an exact tie when it appears earlier in the series. -/
def keyLt (xs : List ℚ) (j i : Nat) : Prop :=
  xs.getD j 0 < xs.getD i 0 ∨ (xs.getD j 0 = xs.getD i 0 ∧ j < i)

instance : ∀ xs i j, Decidable (keyLt xs i j) := fun xs i j => by
  unfold keyLt; infer_instance

/-- `Series.rank(method="first", ascending=True).astype(int)`: entry `i` is
one plus the number of entries strictly before it in the `keyLt` order. -/
def rankFirst (xs : List ℚ) : List Nat :=
  (List.range xs.length).map (fun i =>
    1 + ((List.range xs.length).filter (fun j => decide (keyLt xs j i))).length)

/-- The `cluster_rank` dictionary of `run_kmeans_and_risk_levels`: cluster
label ↦ its rank (by ascending severity, method "first") in the
ascending-label-ordered per-cluster severity series. -/
def clusterRank (df : List FRow) (labels : List Nat) (c : Nat) : Nat :=
  let cs := sortedClusters labels
  (rankFirst (cs.map (severity (df.zip labels)))).getD (List.indexOf c cs) 0

/-- `run_kmeans_and_risk_levels` after the `fit_predict` call: attach each
row's cluster label and map every row to the rank of its cluster. -/
def run_kmeans_and_risk_levels (df : List FRow) (labels : List Nat) : List RRow :=
  (df.zip labels).map (fun p =>
    { toFRow := p.1, cluster := p.2, risk_level := clusterRank df labels p.2 })

/-- The 2-column feature matrix `df[["temp_rolling", "facility_score"]]`. -/
def featureMatrix (df : List FRow) : List (ℚ × ℚ) :=
  df.map (fun r => (r.temp_rolling, r.facility_score))

/-- The pipeline up to and including risk-level assignment (the part of
`main` before the latest-date extraction). -/
def fullTable (n_clusters window : Nat) (use_rolling : Bool) (rows : List Row) :
    Except PipelineError (List RRow) :=
  let df := prepare_features use_rolling window rows
  match fit_transform (featureMatrix df) with
  | .error e => .error e
  | .ok features_scaled =>
    match run_kmeans n_clusters features_scaled with
    | .error e => .error e
    | .ok labels => .ok (run_kmeans_and_risk_levels df labels)

/-- `df["date"].max()`. -/
def latestDate (ds : List Nat) : Nat := ds.foldr max 0

/-- `main` after loading: run the pipeline over the full table, keep only the
rows whose date equals the maximum date present, and project them to
`(barangay_id, risk_level, cluster)`. -/
def mainPipeline (n_clusters window : Nat) (use_rolling : Bool) (rows : List Row) :
    Except PipelineError (List OutRow) :=
  match fullTable n_clusters window use_rolling rows with
  | .error e => .error e
  | .ok t =>
    let latest := latestDate (t.map (·.date))
    .ok ((t.filter (fun r => r.date == latest)).map
      (fun r => { barangay_id := r.barangay_id, risk_level := r.risk_level, cluster := r.cluster }))

/-- A raw CSV cell: either an identifier-like value (unit id, date) or a
numeric value. The loader only inspects column names, so cell contents are
opaque to it. -/
inductive Cell where
  | idVal (n : Nat)
  | numVal (q : ℚ)
deriving DecidableEq

/-- Identifier content of a cell (the cells of well-typed tables in the
identifier columns are `idVal`). -/
def Cell.asId : Cell → Nat
  | .idVal n => n
  | .numVal _ => 0

/-- Numeric content of a cell (the cells of well-typed tables in the numeric
columns are `numVal`). -/
def Cell.asNum : Cell → ℚ
  | .numVal q => q
  | .idVal _ => 0

/-- A raw CSV table as `pd.read_csv` yields it: a list of column names and
one cell-valuation per row. -/
structure RawTable where
  cols : List String
  cells : List (String → Cell)

/-- The column list iterated by the check loop of `load_data`. -/
def requiredCols : List String := ["barangay_id", "date", "temperature", "facility_distance"]

/-- `df["facility_distance"] = df["facility_score"]`: add the
`facility_distance` column as a copy of the legacy `facility_score` column. -/
def addFacilityAlias (t : RawTable) : RawTable :=
  { cols := t.cols ++ ["facility_distance"]
    cells := t.cells.map (fun r c => if c = "facility_distance" then r "facility_score" else r c) }

/-- `load_data`: error on the first missing required column (the loop skips
the `facility_distance` check), then fall back to `facility_score` when
`facility_distance` is absent, erroring when both are. -/
def load_data (t : RawTable) : Except PipelineError RawTable :=
  match requiredCols.find? (fun c => !t.cols.contains c && c != "facility_distance") with
  | some c => .error (.invalidInput ("Missing required column: " ++ c))
  | none =>
    if t.cols.contains "facility_distance" then .ok t
    else if t.cols.contains "facility_score" then .ok (addFacilityAlias t)
    else .error (.invalidInput "Missing column: facility_distance or facility_score")

/-- Read the typed rows out of a loaded raw table. -/
def toRows (t : RawTable) : List Row :=
  t.cells.map (fun r =>
    { barangay_id := (r "barangay_id").asId
      date := (r "date").asId
      temperature := (r "temperature").asNum
      facility_distance := (r "facility_distance").asNum })

/-- The whole driver: load (column checks and facility fallback), then the
pipeline. -/
def mainDriver (n_clusters window : Nat) (use_rolling : Bool) (t : RawTable) :
    Except PipelineError (List OutRow) :=
  match load_data t with
  | .error e => .error e
  | .ok loaded => mainPipeline n_clusters window use_rolling (toRows loaded)

/-- `facility_count_to_distance` from `fetch_pipeline_data.py`:
`1.0 / (1.0 + facility_count)`. -/
def facility_count_to_distance (facility_count : Nat) : ℚ :=
  1 / (1 + (facility_count : ℚ))

/-! ## Small helper lemmas -/

theorem contains_eq_decide_mem (l : List String) (a : String) :
    l.contains a = decide (a ∈ l) := by
  by_cases h : a ∈ l
  · simp [h, List.elem_eq_true_of_mem h, List.contains]
  · simp only [h, decide_False]
    by_cases he : l.contains a = true
    · exact absurd (List.mem_of_elem_eq_true he) h
    · simpa using he

theorem nunique_sorted_dates (rows : List Row) :
    nunique ((sort_values rows).map (·.date)) = nunique (rows.map (·.date)) := by
  unfold nunique sort_values
  exact ((List.perm_insertionSort rowLE rows).map _).dedup.length_eq

/-- Rows of `prepare_features` copy the raw temperature into `temp_rolling`
whenever the rolling branch is off. -/
theorem prepare_features_no_roll (ur : Bool) (w : Nat) (rows : List Row)
    (h : (ur && decide (1 < nunique ((sort_values rows).map (·.date)))) = false) :
    ∀ fr ∈ prepare_features ur w rows, fr.temp_rolling = fr.temperature := by
  intro fr hfr
  simp only [prepare_features, h, Bool.false_eq_true, if_false] at hfr
  obtain ⟨p, _, hp⟩ := List.mem_map.mp hfr
  rw [← hp]

/-! ## C9 -/

/-- C9: the facility transform maps a non-negative integer count `c` to
`1/(1+c)`; count 0 ↦ 1.0, count 4 ↦ 0.2, count 99 ↦ 0.01 exactly, and the
result always lies in (0, 1]. -/
theorem C9_facility_transform (c : Nat) :
    facility_count_to_distance c = 1 / (1 + (c : ℚ))
      ∧ facility_count_to_distance 0 = 1
      ∧ facility_count_to_distance 4 = 2 / 10
      ∧ facility_count_to_distance 99 = 1 / 100
      ∧ 0 < facility_count_to_distance c ∧ facility_count_to_distance c ≤ 1 := by
  refine ⟨rfl, by norm_num [facility_count_to_distance],
    by norm_num [facility_count_to_distance], by norm_num [facility_count_to_distance], ?_, ?_⟩
  · unfold facility_count_to_distance; positivity
  · unfold facility_count_to_distance
    rw [div_le_one (by positivity)]
    linarith [Nat.cast_nonneg (α := ℚ) c]

/-! ## C5 -/

/-- C5: a pipeline run over an empty table fails with `inputNotFound` and
produces no output table; and any error of the feature-building / clustering
stages (`fullTable` is exactly those stages) is propagated unchanged by the
driver, which installs no handler around them. -/
theorem C5_empty_input_and_error_propagation :
    (∀ (k w : Nat) (ur : Bool), mainPipeline k w ur [] = .error .inputNotFound)
    ∧ (∀ (k w : Nat) (ur : Bool) (rows : List Row) (e : PipelineError),
        fullTable k w ur rows = .error e → mainPipeline k w ur rows = .error e) := by
  refine ⟨fun k w ur => rfl, fun k w ur rows e h => ?_⟩
  simp only [mainPipeline, h]

theorem C5_witness :
    mainPipeline 5 7 true ([] : List Row) = .error .inputNotFound
    ∧ mainPipeline 5 7 false ([] : List Row) = .error .inputNotFound :=
  ⟨C5_empty_input_and_error_propagation.1 5 7 true,
   C5_empty_input_and_error_propagation.2 5 7 false [] .inputNotFound rfl⟩

/-! ## C7 -/

/-- `load_data` as an if-chain over column presence. -/
theorem load_data_eq (t : RawTable) :
    load_data t =
      if "barangay_id" ∉ t.cols then
        .error (.invalidInput "Missing required column: barangay_id")
      else if "date" ∉ t.cols then
        .error (.invalidInput "Missing required column: date")
      else if "temperature" ∉ t.cols then
        .error (.invalidInput "Missing required column: temperature")
      else if "facility_distance" ∈ t.cols then .ok t
      else if "facility_score" ∈ t.cols then .ok (addFacilityAlias t)
      else .error (.invalidInput "Missing column: facility_distance or facility_score") := by
  unfold load_data requiredCols
  by_cases hb : "barangay_id" ∈ t.cols <;>
    by_cases hd : "date" ∈ t.cols <;>
      by_cases ht : "temperature" ∈ t.cols <;>
        simp [List.find?, contains_eq_decide_mem, hb, hd, ht]

/-- C7: loading fails with `invalidInput` when `barangay_id`, `date`,
`temperature`, or both facility columns are absent — and then the whole
driver fails with that very error, so no clustering is attempted; when only
the legacy `facility_score` column is present it is used in place of
`facility_distance` (the table is accepted with `facility_distance` added as
a copy of `facility_score`). -/
theorem C7_load_data_required_columns (t : RawTable) (k w : Nat) (ur : Bool) :
    (("barangay_id" ∉ t.cols ∨ "date" ∉ t.cols ∨ "temperature" ∉ t.cols ∨
        ("facility_distance" ∉ t.cols ∧ "facility_score" ∉ t.cols)) →
      ∃ msg, load_data t = .error (.invalidInput msg)
        ∧ mainDriver k w ur t = .error (.invalidInput msg))
    ∧ ("barangay_id" ∈ t.cols → "date" ∈ t.cols → "temperature" ∈ t.cols →
        "facility_distance" ∉ t.cols → "facility_score" ∈ t.cols →
        load_data t = .ok (addFacilityAlias t)
          ∧ (addFacilityAlias t).cells
              = t.cells.map (fun r c => if c = "facility_distance" then r "facility_score" else r c)) := by
  constructor
  · intro h
    have key : ∃ msg, load_data t = .error (.invalidInput msg) := by
      rw [load_data_eq]
      by_cases hb : "barangay_id" ∈ t.cols <;>
        by_cases hd : "date" ∈ t.cols <;>
          by_cases ht : "temperature" ∈ t.cols <;>
            by_cases hf : "facility_distance" ∈ t.cols <;>
              by_cases hs : "facility_score" ∈ t.cols <;>
                simp [hb, hd, ht, hf, hs] <;> tauto
    obtain ⟨msg, hmsg⟩ := key
    exact ⟨msg, hmsg, by simp only [mainDriver, hmsg]⟩
  · intro hb hd ht hf hs
    rw [load_data_eq]
    simp [hb, hd, ht, hf, hs, addFacilityAlias]

theorem C7_witness :
    (∃ msg,
      load_data ⟨["barangay_id", "date"], []⟩ = .error (.invalidInput msg)
        ∧ mainDriver 5 7 true ⟨["barangay_id", "date"], []⟩ = .error (.invalidInput msg))
    ∧ load_data ⟨["barangay_id", "date", "temperature", "facility_score"], []⟩
        = .ok (addFacilityAlias ⟨["barangay_id", "date", "temperature", "facility_score"], []⟩) :=
  ⟨(C7_load_data_required_columns ⟨["barangay_id", "date"], []⟩ 5 7 true).1
      (by right; right; left; decide),
   ((C7_load_data_required_columns ⟨["barangay_id", "date", "temperature", "facility_score"], []⟩
        5 7 true).2 (by decide) (by decide) (by decide) (by decide) (by decide)).1⟩

/-! ## C8 -/

/-- C8: whenever the use-rolling flag is false, or all observations share a
single distinct date (even though rolling was requested), `temp_rolling`
equals the raw temperature on every row produced by the feature builder. -/
theorem C8_single_date_or_no_rolling (rows : List Row) (w : Nat) :
    (∀ fr ∈ prepare_features false w rows, fr.temp_rolling = fr.temperature)
    ∧ (nunique (rows.map (·.date)) = 1 →
        ∀ fr ∈ prepare_features true w rows, fr.temp_rolling = fr.temperature) := by
  constructor
  · exact prepare_features_no_roll false w rows (by simp)
  · intro h1
    refine prepare_features_no_roll true w rows ?_
    rw [nunique_sorted_dates, h1]
    simp

theorem C8_witness :
    ({ barangay_id := 1, date := 10, temperature := 30, facility_distance := 1,
       temp_rolling := 30, facility_score := 1 } : FRow).temp_rolling
      = ({ barangay_id := 1, date := 10, temperature := 30, facility_distance := 1,
           temp_rolling := 30, facility_score := 1 } : FRow).temperature :=
  (C8_single_date_or_no_rolling [⟨1, 10, 30, 1⟩, ⟨2, 10, 31, 1⟩] 7).2 rfl
    ⟨1, 10, 30, 1, 30, 1⟩
    (by rw [show prepare_features true 7 [⟨1, 10, 30, 1⟩, ⟨2, 10, 31, 1⟩]
          = [⟨1, 10, 30, 1, 30, 1⟩, ⟨2, 10, 31, 1, 31, 1⟩] from rfl]
        exact List.mem_cons_self _ _)

/-! ## Theory of `rank(method="first")` -/

/-- The count behind `rankFirst`: how many positions of `xs` precede position
`i` in the (value, position) lexicographic order. -/
def rankCount (xs : List ℚ) (i : Nat) : Nat :=
  ((Finset.range xs.length).filter (fun j => keyLt xs j i)).card

theorem keyLt_trans {xs : List ℚ} {a b c : Nat}
    (h1 : keyLt xs a b) (h2 : keyLt xs b c) : keyLt xs a c := by
  unfold keyLt at *
  rcases h1 with h1 | ⟨h1e, h1i⟩ <;> rcases h2 with h2 | ⟨h2e, h2i⟩
  · exact Or.inl (h1.trans h2)
  · exact Or.inl (h2e ▸ h1)
  · exact Or.inl (h1e ▸ h2)
  · exact Or.inr ⟨h1e.trans h2e, h1i.trans h2i⟩

theorem keyLt_irrefl (xs : List ℚ) (i : Nat) : ¬keyLt xs i i := by
  unfold keyLt
  rintro (h | ⟨-, h⟩) <;> exact lt_irrefl _ h

theorem keyLt_trichot (xs : List ℚ) {i j : Nat} (h : i ≠ j) :
    keyLt xs i j ∨ keyLt xs j i := by
  unfold keyLt
  rcases lt_trichotomy (xs.getD i 0) (xs.getD j 0) with hv | hv | hv
  · exact Or.inl (Or.inl hv)
  · rcases Nat.lt_or_ge i j with hij | hij
    · exact Or.inl (Or.inr ⟨hv, hij⟩)
    · exact Or.inr (Or.inr ⟨hv.symm, lt_of_le_of_ne hij (Ne.symm h)⟩)
  · exact Or.inr (Or.inl hv)

theorem length_filter_range (p : Nat → Bool) (n : Nat) :
    ((List.range n).filter p).length = ((Finset.range n).filter (fun i => p i = true)).card := by
  induction n with
  | zero => rfl
  | succ n ih =>
    rw [List.range_succ, List.filter_append, List.length_append, ih, Finset.range_succ,
      Finset.filter_insert]
    by_cases h : p n
    · rw [if_pos h, Finset.card_insert_of_not_mem (by simp)]
      simp [h]
    · rw [if_neg h]
      simp [h]

theorem length_rankFirst (xs : List ℚ) : (rankFirst xs).length = xs.length := by
  simp [rankFirst]

theorem getElem_rankFirst (xs : List ℚ) (i : Nat) (h : i < (rankFirst xs).length) :
    (rankFirst xs)[i] = 1 + rankCount xs i := by
  unfold rankFirst rankCount
  rw [List.getElem_map, List.getElem_range, length_filter_range]
  simp only [decide_eq_true_eq]

theorem rankCount_lt_rankCount {xs : List ℚ} {i j : Nat}
    (hij : keyLt xs i j) (hi : i < xs.length) : rankCount xs i < rankCount xs j := by
  apply Finset.card_lt_card
  rw [Finset.ssubset_iff_of_subset]
  · exact ⟨i, Finset.mem_filter.mpr ⟨Finset.mem_range.mpr hi, hij⟩,
      fun hmem => keyLt_irrefl xs i (Finset.mem_filter.mp hmem).2⟩
  · intro a ha
    obtain ⟨har, hak⟩ := Finset.mem_filter.mp ha
    exact Finset.mem_filter.mpr ⟨har, keyLt_trans hak hij⟩

theorem rankCount_lt_length {xs : List ℚ} {i : Nat} (hi : i < xs.length) :
    rankCount xs i < xs.length := by
  unfold rankCount
  calc ((Finset.range xs.length).filter (fun j => keyLt xs j i)).card
      ≤ ((Finset.range xs.length).erase i).card := by
        apply Finset.card_le_card
        intro a ha
        obtain ⟨har, hak⟩ := Finset.mem_filter.mp ha
        exact Finset.mem_erase.mpr ⟨fun hai => keyLt_irrefl xs i (hai ▸ hak), har⟩
    _ < xs.length := by
        rw [Finset.card_erase_of_mem (Finset.mem_range.mpr hi), Finset.card_range]
        omega

theorem rankCount_injOn (xs : List ℚ) :
    Set.InjOn (rankCount xs) (Finset.range xs.length) := by
  intro i hi j hj hij
  by_contra hne
  rcases keyLt_trichot xs hne with h | h
  · exact absurd hij (Nat.ne_of_lt (rankCount_lt_rankCount h (by simpa using hi)))
  · exact absurd hij.symm (Nat.ne_of_lt (rankCount_lt_rankCount h (by simpa using hj)))

theorem rankCount_surjOn (xs : List ℚ) {r : Nat} (hr : r < xs.length) :
    ∃ i < xs.length, rankCount xs i = r := by
  have himg : (Finset.range xs.length).image (rankCount xs) = Finset.range xs.length := by
    apply Finset.eq_of_subset_of_card_le
    · intro b hb
      obtain ⟨a, ha, hab⟩ := Finset.mem_image.mp hb
      exact Finset.mem_range.mpr (hab ▸ rankCount_lt_length (Finset.mem_range.mp ha))
    · rw [Finset.card_image_of_injOn (rankCount_injOn xs)]
  have : r ∈ (Finset.range xs.length).image (rankCount xs) := by
    rw [himg]; exact Finset.mem_range.mpr hr
  obtain ⟨i, hi, hir⟩ := Finset.mem_image.mp this
  exact ⟨i, Finset.mem_range.mp hi, hir⟩

/-! ## Cluster ranking lemmas -/

theorem sortedClusters_nodup (labels : List Nat) : (sortedClusters labels).Nodup :=
  (List.perm_insertionSort (· ≤ ·) labels.dedup).nodup_iff.mpr labels.nodup_dedup

theorem mem_sortedClusters {labels : List Nat} {c : Nat} :
    c ∈ sortedClusters labels ↔ c ∈ labels := by
  unfold sortedClusters
  rw [(List.perm_insertionSort (· ≤ ·) labels.dedup).mem_iff, List.mem_dedup]

theorem sortedClusters_length (labels : List Nat) :
    (sortedClusters labels).length = nunique labels :=
  (List.perm_insertionSort (· ≤ ·) labels.dedup).length_eq

theorem sortedClusters_sorted (labels : List Nat) :
    List.Pairwise (· ≤ ·) (sortedClusters labels) :=
  List.sorted_insertionSort (· ≤ ·) labels.dedup

/-- The value of the `cluster_rank` dictionary at a cluster that is present:
one plus the number of clusters strictly before it in the
(severity, position) order over the ascending-label cluster list. -/
theorem clusterRank_eq (df : List FRow) (labels : List Nat) {c : Nat} (hc : c ∈ labels) :
    clusterRank df labels c =
      1 + rankCount ((sortedClusters labels).map (severity (df.zip labels)))
        (List.indexOf c (sortedClusters labels)) := by
  unfold clusterRank
  have hidx : List.indexOf c (sortedClusters labels) < (sortedClusters labels).length :=
    List.indexOf_lt_length.mpr (mem_sortedClusters.mpr hc)
  have hlen : List.indexOf c (sortedClusters labels)
      < (rankFirst ((sortedClusters labels).map (severity (df.zip labels)))).length := by
    rw [length_rankFirst, List.length_map]; exact hidx
  rw [List.getD_eq_getElem _ _ hlen, getElem_rankFirst]

theorem clusterRank_bounds (df : List FRow) (labels : List Nat) {c : Nat} (hc : c ∈ labels) :
    1 ≤ clusterRank df labels c ∧ clusterRank df labels c ≤ nunique labels := by
  rw [clusterRank_eq df labels hc]
  set sevs := (sortedClusters labels).map (severity (df.zip labels)) with hsevs
  have hidx : List.indexOf c (sortedClusters labels) < sevs.length := by
    rw [hsevs, List.length_map]
    exact List.indexOf_lt_length.mpr (mem_sortedClusters.mpr hc)
  have hcount := rankCount_lt_length hidx
  have hm : sevs.length = nunique labels := by
    rw [hsevs, List.length_map, sortedClusters_length]
  omega

theorem clusterRank_injOn (df : List FRow) (labels : List Nat) {c₁ c₂ : Nat}
    (h1 : c₁ ∈ labels) (h2 : c₂ ∈ labels)
    (h : clusterRank df labels c₁ = clusterRank df labels c₂) : c₁ = c₂ := by
  rw [clusterRank_eq df labels h1, clusterRank_eq df labels h2] at h
  set cs := sortedClusters labels with hcs
  have hi1 : List.indexOf c₁ cs < cs.length :=
    List.indexOf_lt_length.mpr (mem_sortedClusters.mpr h1)
  have hi2 : List.indexOf c₂ cs < cs.length :=
    List.indexOf_lt_length.mpr (mem_sortedClusters.mpr h2)
  have hlen : cs.length = ((cs.map (severity (df.zip labels)))).length := by
    rw [List.length_map]
  have heq : List.indexOf c₁ cs = List.indexOf c₂ cs := by
    apply rankCount_injOn (cs.map (severity (df.zip labels))) _ _ (by omega)
    · simp only [Finset.coe_range, Set.mem_Iio]; omega
    · simp only [Finset.coe_range, Set.mem_Iio]; omega
  calc c₁ = cs[List.indexOf c₁ cs] := (List.getElem_indexOf hi1).symm
    _ = cs[List.indexOf c₂ cs] := by congr 1
    _ = c₂ := List.getElem_indexOf hi2

theorem clusterRank_surjOn (df : List FRow) (labels : List Nat) {r : Nat}
    (hr1 : 1 ≤ r) (hr2 : r ≤ nunique labels) :
    ∃ c ∈ labels, clusterRank df labels c = r := by
  set cs := sortedClusters labels with hcs
  set sevs := cs.map (severity (df.zip labels)) with hsevs
  have hm : sevs.length = nunique labels := by
    rw [hsevs, List.length_map, hcs, sortedClusters_length]
  obtain ⟨i, hi, hcount⟩ := rankCount_surjOn sevs (show r - 1 < sevs.length by omega)
  have hics : i < cs.length := by rw [hsevs, List.length_map] at hi; exact hi
  refine ⟨cs[i], mem_sortedClusters.mp (List.getElem_mem hics), ?_⟩
  rw [clusterRank_eq df labels (mem_sortedClusters.mp (List.getElem_mem hics)), ← hcs, ← hsevs,
    List.indexOf_getElem (sortedClusters_nodup labels) i hics, hcount]
  omega

/-- Every output row of `run_kmeans_and_risk_levels` carries a cluster label
taken from `labels` and the risk level of exactly that cluster. -/
theorem mem_run_kmeans_and_risk_levels {df : List FRow} {labels : List Nat} {r : RRow}
    (h : r ∈ run_kmeans_and_risk_levels df labels) :
    r.cluster ∈ labels ∧ r.risk_level = clusterRank df labels r.cluster := by
  unfold run_kmeans_and_risk_levels at h
  obtain ⟨p, hp, hpr⟩ := List.mem_map.mp h
  subst hpr
  exact ⟨(List.of_mem_zip hp).2, rfl⟩

/-- Every cluster label that occurs in `labels` occurs on some output row
(when there is one label per row). -/
theorem run_kmeans_and_risk_levels_covers {df : List FRow} {labels : List Nat}
    (hlen : labels.length = df.length) {c : Nat} (hc : c ∈ labels) :
    ∃ r ∈ run_kmeans_and_risk_levels df labels, r.cluster = c := by
  obtain ⟨t, ht, htc⟩ := List.mem_iff_getElem.mp hc
  have htd : t < df.length := by omega
  have htz : t < (df.zip labels).length := by
    rw [List.length_zip]; omega
  refine ⟨{ toFRow := df[t], cluster := c,
            risk_level := clusterRank df labels c }, ?_, rfl⟩
  unfold run_kmeans_and_risk_levels
  apply List.mem_map.mpr
  refine ⟨(df[t], c), ?_, rfl⟩
  have hz : (df.zip labels)[t] = (df[t], labels[t]) := List.getElem_zip
  rw [htc] at hz
  exact hz ▸ List.getElem_mem htz

theorem severity_getD_indexOf (df : List FRow) (labels : List Nat) {c : Nat}
    (hc : c ∈ labels) :
    ((sortedClusters labels).map (severity (df.zip labels))).getD
      (List.indexOf c (sortedClusters labels)) 0 = severity (df.zip labels) c := by
  have hidx : List.indexOf c (sortedClusters labels) < (sortedClusters labels).length :=
    List.indexOf_lt_length.mpr (mem_sortedClusters.mpr hc)
  have hlen : List.indexOf c (sortedClusters labels)
      < ((sortedClusters labels).map (severity (df.zip labels))).length := by
    rw [List.length_map]; exact hidx
  rw [List.getD_eq_getElem _ _ hlen, List.getElem_map, List.getElem_indexOf hidx]

/-! ## C10 -/

/-- C10: across all rows of `run_kmeans_and_risk_levels`, the set of assigned
risk levels is exactly {1, …, m} where m is the number of distinct cluster
labels actually produced (no gaps, starting at 1), and the map from distinct
cluster labels to risk levels is a bijection onto {1, …, m}. -/
theorem C10_risk_levels_enumerate_clusters (df : List FRow) (labels : List Nat)
    (hlen : labels.length = df.length) (_hne : df ≠ []) :
    ((run_kmeans_and_risk_levels df labels).map (·.risk_level)).toFinset
        = Finset.Icc 1 (nunique labels)
      ∧ (∀ c₁ ∈ labels, ∀ c₂ ∈ labels,
          clusterRank df labels c₁ = clusterRank df labels c₂ → c₁ = c₂)
      ∧ (∀ r ∈ Finset.Icc 1 (nunique labels), ∃ c ∈ labels, clusterRank df labels c = r) := by
  refine ⟨?_, fun c₁ h1 c₂ h2 h => clusterRank_injOn df labels h1 h2 h, fun r hr => by
    obtain ⟨h1, h2⟩ := Finset.mem_Icc.mp hr
    exact clusterRank_surjOn df labels h1 h2⟩
  ext r
  simp only [List.mem_toFinset, List.mem_map, Finset.mem_Icc]
  constructor
  · rintro ⟨row, hrow, hr⟩
    obtain ⟨hc, hrisk⟩ := mem_run_kmeans_and_risk_levels hrow
    have hb := clusterRank_bounds df labels hc
    omega
  · rintro ⟨h1, h2⟩
    obtain ⟨c, hc, hcr⟩ := clusterRank_surjOn df labels h1 h2
    obtain ⟨row, hrow, hcluster⟩ := run_kmeans_and_risk_levels_covers hlen hc
    refine ⟨row, hrow, ?_⟩
    rw [(mem_run_kmeans_and_risk_levels hrow).2, hcluster, hcr]

theorem C10_witness :
    ((run_kmeans_and_risk_levels
        [⟨1, 10, 30, 1, 30, 1⟩, ⟨2, 11, 40, 2, 40, 2⟩] [1, 0]).map (·.risk_level)).toFinset
      = Finset.Icc 1 (nunique [1, 0]) :=
  (C10_risk_levels_enumerate_clusters
    [⟨1, 10, 30, 1, 30, 1⟩, ⟨2, 11, 40, 2, 40, 2⟩] [1, 0] rfl (by simp)).1

/-! ## C2 -/

/-- C2: risk levels order clusters by ascending weighted severity, where a
cluster's severity is the dot product of [0.6, 0.4] with the per-cluster
means of the unscaled `temp_rolling` and `facility_score` columns: strictly
smaller severity gives a (strictly) smaller risk level, equal risk levels can
only occur on exact score ties, and on an exact tie the cluster appearing
earlier in iteration order — pandas `groupby` iterates the distinct cluster
labels in ascending order, so the cluster with the smaller label — receives
the lower risk level. -/
theorem C2_ranking_monotone_in_severity (df : List FRow) (labels : List Nat) (A B : Nat)
    (hA : A ∈ labels) (hB : B ∈ labels) :
    (severity (df.zip labels) A < severity (df.zip labels) B →
        clusterRank df labels A ≤ clusterRank df labels B
          ∧ clusterRank df labels A ≠ clusterRank df labels B)
      ∧ (clusterRank df labels A = clusterRank df labels B →
          severity (df.zip labels) A = severity (df.zip labels) B)
      ∧ (severity (df.zip labels) A = severity (df.zip labels) B → A < B →
          clusterRank df labels A < clusterRank df labels B) := by
  set cs := sortedClusters labels with hcs
  set sevs := cs.map (severity (df.zip labels)) with hsevs
  have hiA : List.indexOf A cs < cs.length :=
    List.indexOf_lt_length.mpr (mem_sortedClusters.mpr hA)
  have hiB : List.indexOf B cs < cs.length :=
    List.indexOf_lt_length.mpr (mem_sortedClusters.mpr hB)
  have hsl : sevs.length = cs.length := by rw [hsevs, List.length_map]
  have hgA : sevs.getD (List.indexOf A cs) 0 = severity (df.zip labels) A :=
    severity_getD_indexOf df labels hA
  have hgB : sevs.getD (List.indexOf B cs) 0 = severity (df.zip labels) B :=
    severity_getD_indexOf df labels hB
  have hrkA := clusterRank_eq df labels hA
  have hrkB := clusterRank_eq df labels hB
  rw [← hcs] at hrkA hrkB
  rw [← hsevs] at hrkA hrkB
  refine ⟨fun hlt => ?_, fun heq => ?_, fun htie hAB => ?_⟩
  · have hk : keyLt sevs (List.indexOf A cs) (List.indexOf B cs) := by
      unfold keyLt
      exact Or.inl (by rw [hgA, hgB]; exact hlt)
    have := rankCount_lt_rankCount hk (by omega)
    constructor <;> omega
  · by_contra hne
    rcases lt_or_gt_of_ne hne with hlt | hlt
    · have hk : keyLt sevs (List.indexOf A cs) (List.indexOf B cs) := by
        unfold keyLt
        exact Or.inl (by rw [hgA, hgB]; exact hlt)
      have := rankCount_lt_rankCount hk (by omega)
      omega
    · have hk : keyLt sevs (List.indexOf B cs) (List.indexOf A cs) := by
        unfold keyLt
        exact Or.inl (by rw [hgA, hgB]; exact hlt)
      have := rankCount_lt_rankCount hk (by omega)
      omega
  · have hne : A ≠ B := Nat.ne_of_lt hAB
    have hidx : List.indexOf A cs < List.indexOf B cs := by
      rcases Nat.lt_trichotomy (List.indexOf A cs) (List.indexOf B cs) with h | h | h
      · exact h
      · exact absurd (by
          calc A = cs[List.indexOf A cs] := (List.getElem_indexOf hiA).symm
            _ = cs[List.indexOf B cs] := by congr 1
            _ = B := List.getElem_indexOf hiB) hne
      · have hle : cs[List.indexOf B cs] ≤ cs[List.indexOf A cs] :=
          List.pairwise_iff_getElem.mp (sortedClusters_sorted labels)
            (List.indexOf B cs) (List.indexOf A cs) hiB hiA h
        rw [List.getElem_indexOf hiA, List.getElem_indexOf hiB] at hle
        omega
    have hk : keyLt sevs (List.indexOf A cs) (List.indexOf B cs) := by
      unfold keyLt
      exact Or.inr ⟨by rw [hgA, hgB]; exact htie, hidx⟩
    have := rankCount_lt_rankCount hk (by omega)
    omega

theorem C2_witness :
    clusterRank [⟨1, 10, 30, 1, 30, 1⟩, ⟨2, 11, 40, 2, 40, 2⟩] [0, 1] 0
        ≤ clusterRank [⟨1, 10, 30, 1, 30, 1⟩, ⟨2, 11, 40, 2, 40, 2⟩] [0, 1] 1
      ∧ clusterRank [⟨1, 10, 30, 1, 30, 1⟩, ⟨2, 11, 40, 2, 40, 2⟩] [0, 1] 0
        ≠ clusterRank [⟨1, 10, 30, 1, 30, 1⟩, ⟨2, 11, 40, 2, 40, 2⟩] [0, 1] 1 :=
  (C2_ranking_monotone_in_severity [⟨1, 10, 30, 1, 30, 1⟩, ⟨2, 11, 40, 2, 40, 2⟩]
    [0, 1] 0 1 (by decide) (by decide)).1 (by norm_num [severity])

/-! ## K-means model lemmas -/

theorem argminIdx_lt : ∀ (ds : List ℚ), ds ≠ [] → argminIdx ds < ds.length := by
  intro ds
  induction ds with
  | nil => intro h; exact absurd rfl h
  | cons x t ih =>
    intro _
    cases t with
    | nil => simp [argminIdx]
    | cons y s =>
      rw [argminIdx]
      split
      · have := ih (by simp)
        simpa using Nat.succ_lt_succ this
      · simp

theorem updateCentroids_length (ps cs : List (ℚ × ℚ)) :
    (updateCentroids ps cs).length = cs.length := by
  unfold updateCentroids
  rw [List.length_map, List.length_range]

theorem lloyd_length : ∀ (n : Nat) (ps cs : List (ℚ × ℚ)),
    (lloyd n ps cs).length = cs.length := by
  intro n
  induction n with
  | zero => intro ps cs; rfl
  | succ n ih =>
    intro ps cs
    rw [lloyd]
    split
    · rfl
    · rw [ih, updateCentroids_length]

/-- Labels returned by the (spec-modelled) fit are indices below `n_clusters`
whenever at least one cluster is requested and at least one point exists. -/
theorem kmeans_fit_predict_lt {n_clusters : Nat} {ps : List (ℚ × ℚ)}
    (hk : 0 < n_clusters) (hps : ps ≠ []) :
    ∀ l ∈ kmeans_fit_predict n_clusters ps, l < n_clusters := by
  intro l hl
  unfold kmeans_fit_predict at hl
  obtain ⟨p, _, hpl⟩ := List.mem_map.mp hl
  have hdne : ps.dedup ≠ [] := by
    obtain ⟨a, ha⟩ := List.exists_mem_of_ne_nil ps hps
    exact List.ne_nil_of_mem (List.mem_dedup.mpr ha)
  have hlen : (lloyd 300 ps (ps.dedup.take n_clusters)).length
      = (ps.dedup.take n_clusters).length := lloyd_length 300 ps _
  have htake : (ps.dedup.take n_clusters).length = min n_clusters ps.dedup.length := by
    rw [List.length_take]
  have hpos : 0 < (ps.dedup.take n_clusters).length := by
    rw [htake]
    have : 0 < ps.dedup.length := List.length_pos.mpr hdne
    omega
  have hcne : lloyd 300 ps (ps.dedup.take n_clusters) ≠ [] := by
    apply List.ne_nil_of_length_pos
    omega
  have harg := argminIdx_lt ((lloyd 300 ps (ps.dedup.take n_clusters)).map (sqDist p))
    (by simpa using hcne)
  rw [List.length_map] at harg
  unfold nearestIdx at hpl
  omega

/-- Inversion of `run_kmeans`: on a non-empty matrix it succeeds with the
fitted labels, one per row. -/
theorem run_kmeans_ok {n_clusters : Nat} {ps : List (ℚ × ℚ)} {labels : List Nat}
    (h : run_kmeans n_clusters ps = .ok labels) :
    ps ≠ [] ∧ labels = kmeans_fit_predict n_clusters ps ∧ labels.length = ps.length := by
  unfold run_kmeans at h
  by_cases hps : ps.isEmpty
  · rw [if_pos hps] at h; cases h
  · rw [if_neg hps] at h
    have hlab : labels = kmeans_fit_predict n_clusters ps := (Except.ok.inj h).symm
    refine ⟨by simpa [List.isEmpty_iff] using hps, hlab, ?_⟩
    rw [hlab]
    unfold kmeans_fit_predict
    rw [List.length_map]

/-- Inversion of `fit_transform`: on success the input was non-empty and the
scaled matrix has one row per input row. -/
theorem fit_transform_ok {feats : List (ℚ × ℚ)} {scaled : List (ℚ × ℚ)}
    (h : fit_transform feats = .ok scaled) :
    feats ≠ [] ∧ scaled.length = feats.length := by
  unfold fit_transform at h
  by_cases hf : feats.isEmpty
  · rw [if_pos hf] at h; cases h
  · rw [if_neg hf] at h
    have hs : scaled = (minmaxCol (feats.map Prod.fst)).zip (minmaxCol (feats.map Prod.snd)) :=
      (Except.ok.inj h).symm
    refine ⟨by simpa [List.isEmpty_iff] using hf, ?_⟩
    rw [hs, List.length_zip]
    unfold minmaxCol
    simp

/-- Inversion of `fullTable`: a successful run is the ranking step applied to
the prepared features with the fitted labels, one label per feature row, all
labels below the cluster count. -/
theorem fullTable_ok {k w : Nat} {ur : Bool} {rows : List Row} {t : List RRow}
    (h : fullTable k w ur rows = .ok t) :
    ∃ labels : List Nat,
      labels.length = (prepare_features ur w rows).length
        ∧ t = run_kmeans_and_risk_levels (prepare_features ur w rows) labels
        ∧ (0 < k → ∀ l ∈ labels, l < k) := by
  simp only [fullTable] at h
  split at h
  · simp at h
  · rename_i scaled hft
    split at h
    · simp at h
    · rename_i labels hrk
      have ht : t = run_kmeans_and_risk_levels (prepare_features ur w rows) labels :=
        (Except.ok.inj h).symm
      obtain ⟨hne, hlab, hlen⟩ := run_kmeans_ok hrk
      obtain ⟨hfne, hslen⟩ := fit_transform_ok hft
      refine ⟨labels, ?_, ht, fun hk l hl => ?_⟩
      · rw [hlen, hslen]
        unfold featureMatrix
        rw [List.length_map]
      · exact kmeans_fit_predict_lt hk hne l (hlab ▸ hl)

/-- Inversion of `mainPipeline`: a successful run is the latest-date extract
of a successful `fullTable` run. -/
theorem mainPipeline_ok {k w : Nat} {ur : Bool} {rows : List Row} {out : List OutRow}
    (h : mainPipeline k w ur rows = .ok out) :
    ∃ t, fullTable k w ur rows = .ok t
      ∧ out = (t.filter (fun r => r.date == latestDate (t.map (·.date)))).map
          (fun r => { barangay_id := r.barangay_id, risk_level := r.risk_level,
                      cluster := r.cluster }) := by
  unfold mainPipeline at h
  split at h
  · simp at h
  · rename_i t heq
    exact ⟨t, heq, (Except.ok.inj h).symm⟩

/-! ## C1 -/

/-- C1: for every input on which the pipeline succeeds (with a positive
cluster count), every output row's risk level is an integer in [1, k], and
rows sharing a cluster label share the same risk level (each distinct cluster
maps to exactly one risk level). -/
theorem C1_risk_level_in_range_and_per_cluster (k w : Nat) (ur : Bool)
    (rows : List Row) (out : List OutRow)
    (hk : 0 < k) (h : mainPipeline k w ur rows = .ok out) :
    ∀ r ∈ out, (1 ≤ r.risk_level ∧ r.risk_level ≤ k)
      ∧ ∀ r' ∈ out, r.cluster = r'.cluster → r.risk_level = r'.risk_level := by
  obtain ⟨t, hft, hout⟩ := mainPipeline_ok h
  obtain ⟨labels, hlen, ht, hlt⟩ := fullTable_ok hft
  subst ht
  subst hout
  have hmem : ∀ r : OutRow, r ∈ (((run_kmeans_and_risk_levels (prepare_features ur w rows)
          labels).filter (fun s => s.date == latestDate ((run_kmeans_and_risk_levels
          (prepare_features ur w rows) labels).map (·.date)))).map
        (fun s => ({ barangay_id := s.barangay_id, risk_level := s.risk_level,
                     cluster := s.cluster } : OutRow))) →
      r.cluster ∈ labels
        ∧ r.risk_level = clusterRank (prepare_features ur w rows) labels r.cluster := by
    intro r hr
    obtain ⟨s, hs, hsr⟩ := List.mem_map.mp hr
    have hsrun := List.mem_of_mem_filter hs
    obtain ⟨hc, hrisk⟩ := mem_run_kmeans_and_risk_levels hsrun
    rw [← hsr]
    exact ⟨hc, hrisk⟩
  have hnuk : nunique labels ≤ k := by
    unfold nunique
    calc labels.dedup.length = labels.toFinset.card := (List.card_toFinset labels).symm
      _ ≤ (Finset.range k).card := Finset.card_le_card (fun x hx =>
            Finset.mem_range.mpr (hlt hk x (List.mem_toFinset.mp hx)))
      _ = k := Finset.card_range k
  intro r hr
  obtain ⟨hc, hrisk⟩ := hmem r hr
  have hb := clusterRank_bounds (prepare_features ur w rows) labels hc
  refine ⟨⟨by omega, by omega⟩, fun r' hr' hcc => ?_⟩
  obtain ⟨hc', hrisk'⟩ := hmem r' hr'
  rw [hrisk, hrisk', hcc]

/-! ## C6 -/

/-- C6: the (spec-modelled) clustering step never raises on a non-empty
well-formed input even when the number of distinct feature points is below
the requested cluster count — duplicate points included — and it produces at
most as many non-empty clusters (distinct labels) as there are distinct
points. -/
theorem C6_fewer_distinct_points_than_clusters (k : Nat) (ps : List (ℚ × ℚ))
    (_hk : 0 < k) (hps : ps ≠ []) (_hdist : nunique ps < k) :
    ∃ labels, run_kmeans k ps = .ok labels
      ∧ labels.length = ps.length
      ∧ nunique labels ≤ nunique ps := by
  refine ⟨kmeans_fit_predict k ps, ?_, ?_, ?_⟩
  · unfold run_kmeans
    rw [if_neg (by simpa [List.isEmpty_iff] using hps)]
  · unfold kmeans_fit_predict
    rw [List.length_map]
  · unfold kmeans_fit_predict nunique
    rw [← List.card_toFinset, ← List.card_toFinset]
    have himg : (ps.map (nearestIdx (lloyd 300 ps (ps.dedup.take k)))).toFinset
        = ps.toFinset.image (nearestIdx (lloyd 300 ps (ps.dedup.take k))) := by
      ext x
      simp
    rw [himg]
    exact Finset.card_image_le

theorem C6_witness :
    ∃ labels, run_kmeans 5 [((0 : ℚ), (0 : ℚ)), ((0 : ℚ), (0 : ℚ))] = .ok labels
      ∧ labels.length = [((0 : ℚ), (0 : ℚ)), ((0 : ℚ), (0 : ℚ))].length
      ∧ nunique labels ≤ nunique [((0 : ℚ), (0 : ℚ)), ((0 : ℚ), (0 : ℚ))] :=
  C6_fewer_distinct_points_than_clusters 5 [((0 : ℚ), (0 : ℚ)), ((0 : ℚ), (0 : ℚ))]
    (by norm_num) (by simp) (by norm_num [nunique])

/-! ## A concrete end-to-end pipeline run, used to exercise the driver -/

theorem lloyd_fixed {n : Nat} {ps cs : List (ℚ × ℚ)}
    (h : updateCentroids ps cs = cs) : lloyd n ps cs = cs := by
  cases n with
  | zero => rfl
  | succ n =>
    rw [lloyd, h]
    simp

theorem rankFirst_singleton (x : ℚ) : rankFirst [x] = [1] := by
  unfold rankFirst
  rw [show List.range ([x] : List ℚ).length = [0] from rfl]
  simp [keyLt]

theorem pipeline_example_run :
    mainPipeline 1 7 true [⟨1, 10, 30, 1⟩] = .ok [⟨1, 1, 0⟩] := by
  have h1 : prepare_features true 7 [⟨1, 10, 30, 1⟩] = [⟨1, 10, 30, 1, 30, 1⟩] := rfl
  have h2 : fit_transform (featureMatrix [(⟨1, 10, 30, 1, 30, 1⟩ : FRow)])
      = .ok [((0 : ℚ), (0 : ℚ))] := by
    norm_num [fit_transform, featureMatrix, minmaxCol]
  have hupd : updateCentroids [(0 : ℚ × ℚ)] [(0 : ℚ × ℚ)] = [(0 : ℚ × ℚ)] := by
    norm_num [updateCentroids, nearestIdx, argminIdx, sqDist, List.range_succ]
  have h3 : run_kmeans 1 [((0 : ℚ), (0 : ℚ))] = .ok [0] := by
    norm_num [run_kmeans, kmeans_fit_predict, nearestIdx]
    rw [lloyd_fixed hupd]
    simp [argminIdx]
  have hcr : clusterRank [(⟨1, 10, 30, 1, 30, 1⟩ : FRow)] [0] 0 = 1 := by
    have hcs : sortedClusters [0] = [0] := by
      simp [sortedClusters, List.insertionSort, List.orderedInsert]
    simp only [clusterRank, hcs, List.map_cons, List.map_nil, rankFirst_singleton]
    decide
  have h4 : run_kmeans_and_risk_levels [(⟨1, 10, 30, 1, 30, 1⟩ : FRow)] [0]
      = [⟨⟨1, 10, 30, 1, 30, 1⟩, 0, 1⟩] := by
    simp [run_kmeans_and_risk_levels, hcr]
  simp only [mainPipeline, fullTable, h1, h2, h3, h4]
  norm_num [latestDate]

theorem C1_witness :
    1 ≤ (⟨1, 1, 0⟩ : OutRow).risk_level ∧ (⟨1, 1, 0⟩ : OutRow).risk_level ≤ 1 :=
  (C1_risk_level_in_range_and_per_cluster 1 7 true [⟨1, 10, 30, 1⟩] [⟨1, 1, 0⟩]
    (by norm_num) pipeline_example_run ⟨1, 1, 0⟩ (List.mem_singleton_self _)).1

/-! ## C3 -/

theorem sort_values_of_sorted {rows : List Row} (h : List.Pairwise rowLE rows) :
    sort_values rows = rows :=
  List.Sorted.insertionSort_eq h

theorem pairwise_rowLE_of_single_unit {u : Nat} {rows : List Row}
    (hu : ∀ r ∈ rows, r.barangay_id = u)
    (hd : rows.Pairwise (fun a b => a.date ≤ b.date)) :
    List.Pairwise rowLE rows := by
  refine hd.imp_of_mem (fun ha hb hab => Or.inr ⟨?_, hab⟩)
  rw [hu _ ha, hu _ hb]

theorem getD_rollingMean (w : Nat) (xs : List ℚ) (i : Nat) (h : i < xs.length) :
    (rollingMean w xs).getD i 0
      = ((xs.take (i + 1)).drop (i + 1 - w)).sum
          / ((xs.take (i + 1)).drop (i + 1 - w)).length := by
  unfold rollingMean
  rw [List.getD_eq_getElem _ _ (by simpa using h), List.getElem_map, List.getElem_range]

/-- A single-unit, date-sorted table with more than one distinct date: the
`temp_rolling` column of `prepare_features` equals the causal trailing
rolling mean of the temperature series. -/
theorem prepare_rolling_single_unit (u w : Nat) (rows : List Row)
    (hu : ∀ r ∈ rows, r.barangay_id = u)
    (hd : rows.Pairwise (fun a b => a.date ≤ b.date))
    (hmulti : 1 < nunique (rows.map (·.date))) :
    (prepare_features true w rows).map (·.temp_rolling)
      = rollingMean w (rows.map (·.temperature)) := by
  have hpw := pairwise_rowLE_of_single_unit hu hd
  have hsorted : sort_values rows = rows := sort_values_of_sorted hpw
  have hroll : (true && decide (1 < nunique (rows.map (·.date)))) = true := by
    simp [hmulti]
  simp only [prepare_features, hsorted, hroll, if_true]
  apply List.ext_getElem
  · simp [rollingMean, List.length_zip]
  · intro i h1 h2
    have hn : i < rows.length := by
      simpa [List.length_zip] using h1
    rw [List.getElem_map, List.getElem_map, List.getElem_zip, List.getElem_range]
    unfold rollingMean
    rw [List.getElem_map, List.getElem_range]
    show tempRollingAt w rows i rows[i] = _
    unfold tempRollingAt
    have hgrp : (rows.take (i + 1)).filter
        (fun s => s.barangay_id == (rows[i]).barangay_id) = rows.take (i + 1) := by
      apply List.filter_eq_self.mpr
      intro a ha
      have h1 : a.barangay_id = u := hu a (List.mem_of_mem_take ha)
      have h2 : (rows[i]).barangay_id = u := hu _ (List.getElem_mem hn)
      simp [h1, h2]
    have hlen : (rows.take (i + 1)).length = i + 1 := by
      rw [List.length_take]
      omega
    have hmap : ((rows.take (i + 1)).drop (i + 1 - w)).map (·.temperature)
        = (((rows.map (·.temperature)).take (i + 1)).drop (i + 1 - w)) := by
      rw [← List.map_take, ← List.map_drop]
    have hwinlen : ((rows.take (i + 1)).drop (i + 1 - w)).length
        = (((rows.map (·.temperature)).take (i + 1)).drop (i + 1 - w)).length := by
      rw [← hmap, List.length_map]
    simp only [hgrp, hlen]
    rw [hmap, hwinlen]

/-- The seven-day single-unit example table of the spec: daily temperatures
30, 32, 34, 36, 38, 40, 42. -/
def weekRows : List Row :=
  [⟨1, 1, 30, 1⟩, ⟨1, 2, 32, 1⟩, ⟨1, 3, 34, 1⟩, ⟨1, 4, 36, 1⟩,
   ⟨1, 5, 38, 1⟩, ⟨1, 6, 40, 1⟩, ⟨1, 7, 42, 1⟩]

/-- Pointwise multi-unit rolling correctness: in a table sorted by
(barangay_id, date) with rolling active, row `i`'s `temp_rolling` is the
trailing-window mean of its own unit's temperature series, taken at this
row's position within its unit's group. -/
theorem prepare_rolling_at (w : Nat) (rows : List Row)
    (hsorted : List.Pairwise rowLE rows)
    (hmulti : 1 < nunique (rows.map (·.date)))
    (i : Nat) (hi : i < rows.length) :
    ((prepare_features true w rows).map (·.temp_rolling)).getD i 0
      = (rollingMean w ((rows.filter
          (fun s => s.barangay_id == (rows[i]).barangay_id)).map (·.temperature))).getD
        (((rows.take (i + 1)).filter
          (fun s => s.barangay_id == (rows[i]).barangay_id)).length - 1) 0 := by
  have hs : sort_values rows = rows := sort_values_of_sorted hsorted
  have hroll : (true && decide (1 < nunique (rows.map (·.date)))) = true := by
    simp [hmulti]
  have hpre : (rows.take (i + 1)).filter
        (fun s => s.barangay_id == (rows[i]).barangay_id)
      <+: rows.filter (fun s => s.barangay_id == (rows[i]).barangay_id) :=
    (List.take_prefix (i + 1) rows).filter _
  have hmem : rows[i] ∈ (rows.take (i + 1)).filter
      (fun s => s.barangay_id == (rows[i]).barangay_id) := by
    apply List.mem_filter.mpr
    constructor
    · have hlt : i < (rows.take (i + 1)).length := by
        rw [List.length_take]; omega
      have : (rows.take (i + 1))[i] = rows[i] := List.getElem_take rows
      exact this ▸ List.getElem_mem hlt
    · simp
  have hm1 : 0 < ((rows.take (i + 1)).filter
      (fun s => s.barangay_id == (rows[i]).barangay_id)).length :=
    List.length_pos.mpr (List.ne_nil_of_mem hmem)
  have hmle := hpre.length_le
  have hgrp_take : (rows.take (i + 1)).filter
        (fun s => s.barangay_id == (rows[i]).barangay_id)
      = (rows.filter (fun s => s.barangay_id == (rows[i]).barangay_id)).take
          (((rows.take (i + 1)).filter
            (fun s => s.barangay_id == (rows[i]).barangay_id)).length) :=
    List.prefix_iff_eq_take.mp hpre
  -- left side: reduce to `tempRollingAt`
  have hplen : i < ((prepare_features true w rows).map (·.temp_rolling)).length := by
    simp only [prepare_features, hs, List.length_map, List.length_zip, List.length_range]
    omega
  rw [List.getD_eq_getElem _ _ hplen]
  simp only [prepare_features, hs, hroll, if_true] at hplen ⊢
  rw [List.getElem_map, List.getElem_map, List.getElem_zip, List.getElem_range]
  show tempRollingAt w rows i rows[i] = _
  -- right side: reduce `rollingMean` at the in-group position
  have hrlen : (((rows.take (i + 1)).filter
        (fun s => s.barangay_id == (rows[i]).barangay_id)).length - 1)
      < ((rows.filter (fun s => s.barangay_id == (rows[i]).barangay_id)).map
          (·.temperature)).length := by
    rw [List.length_map]
    omega
  rw [List.getD_eq_getElem _ _ (by simpa [rollingMean] using hrlen)]
  unfold rollingMean
  rw [List.getElem_map, List.getElem_range]
  have hm : ((rows.take (i + 1)).filter
      (fun s => s.barangay_id == (rows[i]).barangay_id)).length - 1 + 1
      = ((rows.take (i + 1)).filter
        (fun s => s.barangay_id == (rows[i]).barangay_id)).length := by
    omega
  rw [hm]
  have hxs_take : ((rows.filter (fun s => s.barangay_id == (rows[i]).barangay_id)).map
        (·.temperature)).take (((rows.take (i + 1)).filter
          (fun s => s.barangay_id == (rows[i]).barangay_id)).length)
      = ((rows.take (i + 1)).filter
          (fun s => s.barangay_id == (rows[i]).barangay_id)).map (·.temperature) := by
    rw [← List.map_take, ← hgrp_take]
  rw [hxs_take]
  unfold tempRollingAt
  simp only [← List.map_drop, List.length_map]

/-- C3: with rolling on and more than one distinct date, `temp_rolling` of
every row of a (barangay, date)-sorted table is the causal trailing mean of
that row's own unit's temperature series at the row's within-unit position
(window `w`, all prior-and-current points when fewer than `w` exist); for a
single unit the whole `temp_rolling` column equals `rollingMean` of the
temperature series; in particular, for daily temperatures
[30, 32, 34, 36, 38, 40, 42], window 7 gives 36 on the 7th day and window 3
gives 32 on the 3rd day. -/
theorem C3_rolling_mean_correct :
    (∀ (w : Nat) (rows : List Row), List.Pairwise rowLE rows →
        1 < nunique (rows.map (·.date)) → ∀ (i : Nat) (hi : i < rows.length),
        ((prepare_features true w rows).map (·.temp_rolling)).getD i 0
          = (rollingMean w ((rows.filter
              (fun s => s.barangay_id == (rows[i]).barangay_id)).map (·.temperature))).getD
            (((rows.take (i + 1)).filter
              (fun s => s.barangay_id == (rows[i]).barangay_id)).length - 1) 0)
      ∧ (∀ (u w : Nat) (rows : List Row), 1 ≤ w →
        (∀ r ∈ rows, r.barangay_id = u) →
        rows.Pairwise (fun a b => a.date ≤ b.date) →
        1 < nunique (rows.map (·.date)) →
        (prepare_features true w rows).map (·.temp_rolling)
          = rollingMean w (rows.map (·.temperature)))
      ∧ ((prepare_features true 7 weekRows).map (·.temp_rolling)).getD 6 0 = 36
      ∧ ((prepare_features true 3 weekRows).map (·.temp_rolling)).getD 2 0 = 32 := by
  refine ⟨fun w rows hsorted hmulti i hi => prepare_rolling_at w rows hsorted hmulti i hi, ?_⟩
  have hgen : ∀ (u w : Nat) (rows : List Row),
      (∀ r ∈ rows, r.barangay_id = u) →
      rows.Pairwise (fun a b => a.date ≤ b.date) →
      1 < nunique (rows.map (·.date)) →
      (prepare_features true w rows).map (·.temp_rolling)
        = rollingMean w (rows.map (·.temperature)) :=
    fun u w rows => prepare_rolling_single_unit u w rows
  refine ⟨fun u w rows _ => hgen u w rows, ?_, ?_⟩
  · rw [hgen 1 7 weekRows (by decide) (by decide) (by decide)]
    rw [show weekRows.map (·.temperature) = [(30 : ℚ), 32, 34, 36, 38, 40, 42] from rfl]
    rw [getD_rollingMean 7 _ 6 (by decide)]
    rw [show (([(30 : ℚ), 32, 34, 36, 38, 40, 42].take (6 + 1)).drop (6 + 1 - 7))
        = [(30 : ℚ), 32, 34, 36, 38, 40, 42] from rfl]
    norm_num [List.sum_cons]
  · rw [hgen 1 3 weekRows (by decide) (by decide) (by decide)]
    rw [show weekRows.map (·.temperature) = [(30 : ℚ), 32, 34, 36, 38, 40, 42] from rfl]
    rw [getD_rollingMean 3 _ 2 (by decide)]
    rw [show (([(30 : ℚ), 32, 34, 36, 38, 40, 42].take (2 + 1)).drop (2 + 1 - 3))
        = [(30 : ℚ), 32, 34] from rfl]
    norm_num [List.sum_cons]

theorem C3_witness :
    (prepare_features true 7 weekRows).map (·.temp_rolling)
      = rollingMean 7 (weekRows.map (·.temperature)) :=
  C3_rolling_mean_correct.2.1 1 7 weekRows (by norm_num) (by decide) (by decide) (by decide)

/-! ## C4 -/

theorem prepare_features_map_date (ur : Bool) (w : Nat) (rows : List Row) :
    (prepare_features ur w rows).map (·.date) = (sort_values rows).map (·.date) := by
  simp only [prepare_features]
  apply List.ext_getElem
  · simp [List.length_zip]
  · intro i h1 h2
    simp only [List.getElem_map, List.getElem_zip]

theorem run_kmeans_and_risk_levels_map_date {df : List FRow} {labels : List Nat}
    (hlen : labels.length = df.length) :
    (run_kmeans_and_risk_levels df labels).map (·.date) = df.map (·.date) := by
  unfold run_kmeans_and_risk_levels
  apply List.ext_getElem
  · simp [List.length_zip, hlen]
  · intro i h1 h2
    simp only [List.getElem_map, List.getElem_zip]

theorem latestDate_perm {l₁ l₂ : List Nat} (h : l₁.Perm l₂) :
    latestDate l₁ = latestDate l₂ := by
  unfold latestDate
  induction h with
  | nil => rfl
  | cons x _ ih => simp only [List.foldr_cons, ih]
  | swap x y l => simp only [List.foldr_cons]; exact max_left_comm y x _
  | trans _ _ ih1 ih2 => rw [ih1, ih2]

/-- The dates of a successful `fullTable` run are a permutation of the input
dates (the pipeline only reorders rows, never drops or invents any). -/
theorem fullTable_dates {k w : Nat} {ur : Bool} {rows : List Row} {t : List RRow}
    (h : fullTable k w ur rows = .ok t) :
    (t.map (·.date)).Perm (rows.map (·.date)) := by
  obtain ⟨labels, hlen, ht, -⟩ := fullTable_ok h
  rw [ht, run_kmeans_and_risk_levels_map_date hlen, prepare_features_map_date]
  exact (List.perm_insertionSort rowLE rows).map _

/-- C4: a successful driver run returns exactly the rows of the full ranked
table whose date is the maximum date present in the input, projected to
(barangay_id, risk_level, cluster); and when the input satisfies the
Observation invariant (one row per (unit, date) pair), the output row count
equals the number of distinct units present on that maximum date. -/
theorem C4_latest_date_extract (k w : Nat) (ur : Bool) (rows : List Row) (out : List OutRow)
    (h : mainPipeline k w ur rows = .ok out)
    (huniq : rows.Pairwise
      (fun a b => (a.barangay_id, a.date) ≠ (b.barangay_id, b.date))) :
    (∃ t, fullTable k w ur rows = .ok t
        ∧ out = (t.filter (fun r => r.date == latestDate (rows.map (·.date)))).map
            (fun r => { barangay_id := r.barangay_id, risk_level := r.risk_level,
                        cluster := r.cluster }))
      ∧ out.length = nunique ((rows.filter
          (fun r => r.date == latestDate (rows.map (·.date)))).map (·.barangay_id)) := by
  obtain ⟨t, hft, hout⟩ := mainPipeline_ok h
  have hperm := fullTable_dates hft
  have hL : latestDate (t.map (·.date)) = latestDate (rows.map (·.date)) :=
    latestDate_perm hperm
  refine ⟨⟨t, hft, by rw [hout, hL]⟩, ?_⟩
  have h1 : out.length
      = List.countP (fun d => d == latestDate (rows.map (·.date))) (t.map (·.date)) := by
    rw [hout, hL, List.length_map, ← List.countP_eq_length_filter, List.countP_map]
    rfl
  have h2 : List.countP (fun d => d == latestDate (rows.map (·.date))) (t.map (·.date))
      = List.countP (fun d => d == latestDate (rows.map (·.date))) (rows.map (·.date)) :=
    hperm.countP_eq _
  have h3 : List.countP (fun d => d == latestDate (rows.map (·.date))) (rows.map (·.date))
      = (rows.filter (fun r => r.date == latestDate (rows.map (·.date)))).length := by
    rw [List.countP_map, List.countP_eq_length_filter]
    rfl
  have hnodup : ((rows.filter (fun r => r.date == latestDate (rows.map (·.date)))).map
      (·.barangay_id)).Nodup := by
    show List.Pairwise _ _
    rw [List.pairwise_map]
    have hp := huniq.filter (fun r => r.date == latestDate (rows.map (·.date)))
    refine hp.imp_of_mem (fun {a b} ha hb hpair hids => hpair ?_)
    have hda : a.date = latestDate (rows.map (·.date)) := by
      simpa using (List.mem_filter.mp ha).2
    have hdb : b.date = latestDate (rows.map (·.date)) := by
      simpa using (List.mem_filter.mp hb).2
    rw [Prod.mk.injEq]
    exact ⟨hids, by rw [hda, hdb]⟩
  have h4 : nunique ((rows.filter (fun r => r.date == latestDate (rows.map (·.date)))).map
      (·.barangay_id)) = (rows.filter
        (fun r => r.date == latestDate (rows.map (·.date)))).length := by
    unfold nunique
    rw [List.dedup_eq_self.mpr hnodup, List.length_map]
  rw [h1, h2, h3, h4]

theorem C4_witness :
    (∃ t, fullTable 1 7 true [⟨1, 10, 30, 1⟩] = .ok t
        ∧ [(⟨1, 1, 0⟩ : OutRow)]
            = (t.filter (fun r => r.date == latestDate ([(⟨1, 10, 30, 1⟩ : Row)].map
                (·.date)))).map
              (fun r => { barangay_id := r.barangay_id, risk_level := r.risk_level,
                          cluster := r.cluster }))
      ∧ [(⟨1, 1, 0⟩ : OutRow)].length
          = nunique (([(⟨1, 10, 30, 1⟩ : Row)].filter
              (fun r => r.date == latestDate ([(⟨1, 10, 30, 1⟩ : Row)].map
                (·.date)))).map (·.barangay_id)) :=
  C4_latest_date_extract 1 7 true [⟨1, 10, 30, 1⟩] [⟨1, 1, 0⟩]
    pipeline_example_run (by simp)

